import Mathlib

/-!
Verification development for `convertStatement.py`, a line-oriented parser that
extracts transaction records from Wells Fargo Bilt statement text.

The Python source is shallowly embedded: lines are `String`s (manipulated as
`List Char`), the regular expressions of the source are compiled by hand into
deterministic character-list matchers that follow the backtracking semantics of
Python's `re` module on the concrete patterns used, amounts are parsed into `ℚ`,
and the stateful page scan becomes a fold over the line list.
-/

set_option maxHeartbeats 1000000

namespace ConvertStatement

/-- Whitespace as recognized by Python's `str.strip` and the regex class `\s`
(ASCII fragment; the statements contain only ASCII whitespace). -/
def isPySpace (c : Char) : Bool :=
  c = ' ' || c = '\t' || c = '\n' || c = '\r' || c = '\x0b' || c = '\x0c'

/-- Python `str.strip()`: drop whitespace from both ends. -/
def pyStrip (l : List Char) : List Char :=
  (l.dropWhile isPySpace).rdropWhile isPySpace

/-- `str.strip()` at the `String` level. -/
def pyStripS (s : String) : String := String.mk (pyStrip s.data)

/-- Python's substring containment `needle in hay` on character lists. -/
def occursIn (needle : List Char) : List Char → Bool
  | [] => needle.isEmpty
  | c :: t => needle.isPrefixOf (c :: t) || occursIn needle t

/-- Python's `sub in hay` on strings. -/
def containsS (hay sub : String) : Bool := occursIn sub.data hay.data

/-- The regex class `\w` (ASCII fragment): letters, digits, underscore. -/
def isWordChar (c : Char) : Bool := c.isAlphanum || c = '_'

/-- `re.match(r'^\d{2}/\d{2}', line)` viewed as a Boolean test. -/
def startsWithDate : List Char → Bool
  | a :: b :: s :: c :: d :: _ =>
      a.isDigit && b.isDigit && (s = '/') && c.isDigit && d.isDigit
  | _ => false

/-- Date-prefix test at the `String` level. -/
def startsWithDateS (s : String) : Bool := startsWithDate s.data

/-- Characters allowed by the regex class `[\d,]`. -/
def isAmtChar (c : Char) : Bool := c.isDigit || c = ','

/-- Acceptance of `\$[\d,]+\.?\d*-?` anchored so that it must consume the whole
string (as in group 6 of the transaction pattern, which is followed by `$`). -/
def amountToEnd : List Char → Bool
  | [] => false
  | c :: body =>
      if c = '$' then
        let body2 := if body.getLast? = some '-' then body.dropLast else body
        let a := body2.takeWhile isAmtChar
        let b := body2.drop a.length
        (!a.isEmpty) &&
          (match b with
           | [] => true
           | '.' :: t => t.all Char.isDigit
           | _ => false)
      else false

/-- One unanchored greedy match of `\$[\d,]+\.?\d*-?` at the head of the string:
the number of characters consumed (`re.findall` semantics at one position). -/
def matchAmountLen : List Char → Option Nat
  | '$' :: body =>
      let a := body.takeWhile isAmtChar
      if a.isEmpty then none
      else
        match body.drop a.length with
        | '.' :: t =>
            let d := t.takeWhile Char.isDigit
            some (2 + a.length + d.length +
              (match t.drop d.length with | '-' :: _ => 1 | _ => 0))
        | '-' :: _ => some (1 + a.length + 1)
        | _ => some (1 + a.length)
  | _ => none

/-- Worker for `findAmounts`, structurally recursive on a fuel argument so that
it reduces in the kernel; each scan step consumes at least one character, so
fuel equal to the list length is never exhausted. -/
def findAmountsF : Nat → List Char → List (List Char)
  | 0, _ => []
  | _ + 1, [] => []
  | fuel + 1, c :: t =>
      match matchAmountLen (c :: t) with
      | some k => (c :: t).take k :: findAmountsF fuel (t.drop (k - 1))
      | none => findAmountsF fuel t

/-- `re.findall(r'\$[\d,]+\.?\d*-?', text)`: scan left to right, at each position
emit the greedy match if one starts there (continuing after it), else advance. -/
def findAmounts (l : List Char) : List (List Char) :=
  findAmountsF l.length l

/-- Parse `\d{2}/\d{2}` at the head: the five matched characters and the rest. -/
def takeDatePrefix : List Char → Option (List Char × List Char)
  | a :: b :: s :: c :: d :: rest =>
      if a.isDigit && b.isDigit && (s = '/') && c.isDigit && d.isDigit then
        some ([a, b, s, c, d], rest)
      else none
  | _ => none

/-- Parse `\s+` (a nonempty maximal whitespace run); return what follows. -/
def takeSpaces1 (l : List Char) : Option (List Char) :=
  if (l.takeWhile isPySpace).isEmpty then none else some (l.dropWhile isPySpace)

/-- Parse `\w+` (a nonempty maximal word-character run). -/
def takeWord1 (l : List Char) : Option (List Char × List Char) :=
  if (l.takeWhile isWordChar).isEmpty then none
  else some (l.takeWhile isWordChar, l.dropWhile isWordChar)

/-- One candidate for the split `(.+?)\s+(\$[\d,]+\.?\d*-?)$` of the tail `t`:
group 5 is `t[s:p]`, then at least one whitespace character, then group 6 running
to the end of the line.  `(.+?)` cannot match a newline. -/
def checkSplit (t : List Char) (s p : Nat) : Option (List Char × List Char) :=
  let rest := t.drop p
  let sp := rest.takeWhile isPySpace
  let g6 := rest.dropWhile isPySpace
  let g5 := (t.drop s).take (p - s)
  if (!sp.isEmpty) && amountToEnd g6 && g5.all (fun c => c ≠ '\n') then
    some (g5, g6)
  else none

/-- Search for the split of the tail after group 4 in Python's backtracking
order: the `\s+` separator before group 5 is greedy (tried longest first, so the
start `s` of group 5 goes from the end `w` of the whitespace run downwards), and
group 5 is lazy (its end `p` is tried shortest first). -/
def searchSplit (t : List Char) (w : Nat) : Option (List Char × List Char) :=
  ((List.range w).map (fun k => w - k)).findSome? (fun s =>
    (List.range' (s + 1) (t.length - s)).findSome? (fun p => checkSplit t s p))

/-- `re.match` against the transaction pattern
`^(\d{2}/\d{2})\s+(\d{2}/\d{2})\s+(\w+)\s+(\w+)\s+(.+?)\s+(\$[\d,]+\.?\d*-?)$`,
returning the six groups. -/
def matchTransPattern (cs : List Char) :
    Option (List Char × List Char × List Char × List Char × List Char × List Char) :=
  match takeDatePrefix cs with
  | none => none
  | some (g1, r1) =>
    match takeSpaces1 r1 with
    | none => none
    | some r2 =>
      match takeDatePrefix r2 with
      | none => none
      | some (g2, r3) =>
        match takeSpaces1 r3 with
        | none => none
        | some r4 =>
          match takeWord1 r4 with
          | none => none
          | some (g3, r5) =>
            match takeSpaces1 r5 with
            | none => none
            | some r6 =>
              match takeWord1 r6 with
              | none => none
              | some (g4, t) =>
                if (t.takeWhile isPySpace).length = 0 then none
                else
                  match searchSplit t (t.takeWhile isPySpace).length with
                  | none => none
                  | some (g5, g6) => some (g1, g2, g3, g4, g5, g6)

/-- Python's `str.replace(pat, '')` for a nonempty pattern `p0 :: pr`: remove
every non-overlapping occurrence, scanning left to right.  Structurally
recursive on a fuel argument so that it reduces in the kernel; each step
consumes at least one character, so fuel equal to the list length suffices. -/
def replaceAllNEF (p0 : Char) (pr : List Char) : Nat → List Char → List Char
  | 0, s => s
  | _ + 1, [] => []
  | fuel + 1, c :: t =>
      if (p0 :: pr).isPrefixOf (c :: t) then replaceAllNEF p0 pr fuel (t.drop pr.length)
      else c :: replaceAllNEF p0 pr fuel t

/-- Python's `s.replace(pat, '')` (an empty pattern leaves `s` unchanged when the
replacement is empty). -/
def replaceAll (pat : List Char) (s : List Char) : List Char :=
  match pat with
  | [] => s
  | p0 :: pr => replaceAllNEF p0 pr s.length s

/-- `amount.replace('$', '').replace(',', '')`. -/
def stripDollarCommas (amt : List Char) : List Char :=
  amt.filter (fun c => !(c = '$' || c = ','))

/-- The sign normalization: a trailing `-` is moved to the front. -/
def moveTrailingSign (clean : List Char) : List Char :=
  if clean.getLast? = some '-' then '-' :: clean.dropLast else clean

/-- Digits of a decimal numeral read as a natural number. -/
def natFromDigits (l : List Char) : Nat :=
  l.foldl (fun acc c => 10 * acc + (c.toNat - 48)) 0

/-- Python `float` on an unsigned decimal string made of digits and at most one
dot (the only shapes reachable from the cleaned amount tokens): `"13"`, `"13."`,
`".5"`, `"13.74"` parse; `""`, `"."`, and anything with a stray character fail. -/
def parseUnsigned (cs : List Char) : Option ℚ :=
  let ip := cs.takeWhile Char.isDigit
  match cs.drop ip.length with
  | [] => if ip.isEmpty then none else some (mkRat (natFromDigits ip) 1)
  | '.' :: frac =>
      if frac.all Char.isDigit && (!(ip.isEmpty && frac.isEmpty)) then
        some (mkRat (natFromDigits ip * 10 ^ frac.length + natFromDigits frac) (10 ^ frac.length))
      else none
  | _ => none

/-- Python `float` on the cleaned amount strings, handling a leading minus. -/
def parseDecimal (cs : List Char) : Option ℚ :=
  match cs with
  | '-' :: t => (parseUnsigned t).map (fun q => -q)
  | _ => parseUnsigned cs

/-- The record built by `parse_transaction_line`. -/
structure Transaction where
  trans_date : String
  post_date : String
  reference_number : String
  transaction_id : String
  description : String
  amount : ℚ
deriving DecidableEq, Repr

/-- The fixed list of section-end markers (identical in the scanner and in the
continuation loop of `parse_transaction_line`). -/
def sectionMarkers : List String :=
  ["Cash Advances", "Fees Charged", "Interest Charged",
   "2024 Totals", "BiltProtect Summary", "Continued on next page"]

/-- `any(section in line for section in [...])`. -/
def anyMarkerIn (line : String) : Bool :=
  sectionMarkers.any (fun m => containsS line m)

/-- The `while` condition of the continuation loop: the raw next line has
non-blank content, does not itself start (unstripped) with the date pattern, and
contains no section-end marker. -/
def contWhileCond (raw : String) : Bool :=
  (!(pyStrip raw.data).isEmpty) && (!startsWithDate raw.data) && (!anyMarkerIn raw)

/-- Worker for the continuation loop, walking the suffix of the line list that
starts at the loop's current index. -/
def contLoopAux : List String → List Char → List Char
  | [], desc => desc
  | raw :: more, desc =>
      if contWhileCond raw then
        contLoopAux more
          (if (!(pyStrip raw.data).isEmpty) && (!startsWithDate (pyStrip raw.data)) then
            desc ++ ' ' :: pyStrip raw.data
          else desc)
      else desc

/-- The multi-line continuation loop of `parse_transaction_line`: starting at
line `j` (`next_line_index`), while the while-condition holds, append the
stripped line to the description — but only when the stripped line does not
itself start with the date pattern — and advance. -/
def contLoop (all : List String) (j : Nat) (desc : List Char) : List Char :=
  contLoopAux (all.drop j) desc

/-- `parse_transaction_line(line, all_lines, line_index)` with the run-time
current year passed explicitly. -/
def parse_transaction_line (line : String) (all_lines : List String)
    (line_index : Nat) (year : Nat) : Option Transaction :=
  match matchTransPattern line.data with
  | none => none
  | some (g1, g2, g3, g4, g5, g6) =>
      let description_and_amount := g5 ++ ' ' :: g6
      match (findAmounts description_and_amount).getLast? with
      | none => none
      | some amount =>
          let description := pyStrip (replaceAll amount description_and_amount)
          let desc2 := contLoop all_lines (line_index + 1) description
          let amount_clean := moveTrailingSign (stripDollarCommas amount)
          match parseDecimal amount_clean with
          | none => none
          | some amount_float =>
              some {
                trans_date := String.mk (g1 ++ '/' :: (toString year).data)
                post_date := String.mk (g2 ++ '/' :: (toString year).data)
                reference_number := String.mk g3
                transaction_id := String.mk g4
                description := String.mk (pyStrip desc2)
                amount := amount_float }

/-- `"Trans Date" in line and "Post Date" in line and "Amount" in line`. -/
def isTransactionHeader (line : String) : Bool :=
  containsS line "Trans Date" && containsS line "Post Date" && containsS line "Amount"

/-- The per-line transition of the `transaction_section` flag in
`extract_transactions_from_bilt_statement`. -/
def sectionStep (sec : Bool) (rawLine : String) : Bool :=
  let line := pyStripS rawLine
  if isTransactionHeader line then true
  else if sec && anyMarkerIn line then
    if containsS line "Continued on next page" then sec else false
  else sec

/-- The record (if any) emitted while scanning one line of a page. -/
def lineEmit (sec : Bool) (rawLine : String) (all : List String) (i year : Nat) :
    Option Transaction :=
  let line := pyStripS rawLine
  if isTransactionHeader line then none
  else if sec && anyMarkerIn line then none
  else if sec && (!line.isEmpty) && startsWithDateS line then
    parse_transaction_line line all i year
  else none

/-- The inner loop over a page's lines: `rest` is the remaining suffix, `i` the
index of its first line in `all`, `sec` the current `transaction_section` flag. -/
def scanAux (all : List String) (year : Nat) : List String → Nat → Bool → List Transaction
  | [], _, _ => []
  | l :: rest, i, sec =>
      match lineEmit sec l all i year with
      | some t => t :: scanAux all year rest (i + 1) (sectionStep sec l)
      | none => scanAux all year rest (i + 1) (sectionStep sec l)

/-- Scan of one page's lines, starting from section state `sec0` (the Python
code always starts a page with `transaction_section = False`). -/
def scanPage (lines : List String) (year : Nat) (sec0 : Bool) : List Transaction :=
  scanAux lines year lines 0 sec0

/-- The final value of the `transaction_section` flag after scanning a page that
started in state `sec0`. -/
def scanPageState (lines : List String) (sec0 : Bool) : Bool :=
  lines.foldl sectionStep sec0

/-- `extract_transactions_from_bilt_statement`: pages are processed in order and
each page scan starts with `transaction_section = False`. -/
def extract_transactions_from_bilt_statement (pages : List (List String)) (year : Nat) :
    List Transaction :=
  pages.foldl (fun acc p => acc ++ scanPage p year false) []

/-- A cell of the CSV output: the writer is modelled up to cell serialization. -/
inductive CsvCell where
  | str (s : String)
  | num (q : ℚ)
deriving DecidableEq, Repr

/-- The fixed field names of the CSV header. -/
def fieldnames : List String :=
  ["trans_date", "post_date", "reference_number", "transaction_id", "description", "amount"]

/-- One CSV row for a record, cells in `fieldnames` order. -/
def recordRow (t : Transaction) : List CsvCell :=
  [.str t.trans_date, .str t.post_date, .str t.reference_number,
   .str t.transaction_id, .str t.description, .num t.amount]

/-- Outcome of `save_transactions_to_csv`: either a console notice (and no file)
or the written file's rows. -/
inductive SaveResult where
  | notice (msg : String)
  | file (rows : List (List CsvCell))
deriving DecidableEq, Repr

/-- `save_transactions_to_csv`. -/
def save_transactions_to_csv (transactions : List Transaction) : SaveResult :=
  if transactions.isEmpty then .notice "No transactions to save"
  else .file ((fieldnames.map .str) :: transactions.map recordRow)

/-- The report assembled by `analyze_extracted_transactions`. -/
structure AnalysisReport where
  count : Nat
  total_amount : ℚ
  positive_total : ℚ
  negative_total : ℚ
  min_date : String
  max_date : String
  sample : List Transaction
deriving DecidableEq, Repr

/-- Python `min` over a nonempty list (`a` the first element): keep the earliest
of the smallest elements under `<`. -/
def pyMinFold (l : List String) (a : String) : String :=
  l.foldl (fun acc x => if x < acc then x else acc) a

/-- Python `max` over a nonempty list (`a` the first element). -/
def pyMaxFold (l : List String) (a : String) : String :=
  l.foldl (fun acc x => if acc < x then x else acc) a

/-- `analyze_extracted_transactions`: `none` models the early return (after the
"No transactions found" notice) on an empty record list. -/
def analyze_extracted_transactions : List Transaction → Option AnalysisReport
  | [] => none
  | t :: rest =>
      some {
        count := (t :: rest).length
        total_amount := ((t :: rest).map (fun x => x.amount)).sum
        positive_total := (((t :: rest).filter (fun x => 0 < x.amount)).map (fun x => x.amount)).sum
        negative_total := (((t :: rest).filter (fun x => x.amount < 0)).map (fun x => x.amount)).sum
        min_date := pyMinFold (rest.map (fun x => x.trans_date)) t.trans_date
        max_date := pyMaxFold (rest.map (fun x => x.trans_date)) t.trans_date
        sample := (t :: rest).take 5 }

/-- The record of the variant-1 parser. -/
structure V1Record where
  date : String
  description : String
  amount : String
deriving DecidableEq, Repr

/-- Modelled from the spec: the variant-1 start-line test `^\d{2}/\d{2}/\d{2}`
(the variant-1 source file is not part of `src/`). -/
def startsWithDate8 : List Char → Bool
  | a :: b :: s1 :: c :: d :: s2 :: e :: f :: _ =>
      a.isDigit && b.isDigit && (s1 = '/') && c.isDigit && d.isDigit &&
        (s2 = '/') && e.isDigit && f.isDigit
  | _ => false

/-- Modelled from the spec: one end-anchored match of `\$?([\d,]+\.\d{2})$` at
the head of `cs`, returning the captured group (without the `$`). -/
def v1AmountAt (cs : List Char) : Option (List Char) :=
  let rest := match cs with | '$' :: t => t | _ => cs
  let a := rest.takeWhile isAmtChar
  match rest.drop a.length with
  | '.' :: d1 :: d2 :: [] =>
      if (!a.isEmpty) && d1.isDigit && d2.isDigit then some (a ++ ['.', d1, d2])
      else none
  | _ => none

/-- Modelled from the spec: `re.search(r'\$?([\d,]+\.\d{2})$', line)` — the
leftmost starting position whose suffix matches to the end, with its capture. -/
def v1SearchAmount (cs : List Char) : Option (Nat × List Char) :=
  (List.range (cs.length + 1)).findSome? (fun i =>
    (v1AmountAt (cs.drop i)).map (fun cap => (i, cap)))

/-- Modelled from the spec: the variant-1 field extractor (spec section 4.1,
step 2); the variant-1 source file is not part of `src/`.  On a start line the
date is the first 8 characters; if a trailing currency amount is found, the
amount is the captured group and the description is the substring from index 9
to the match start, stripped; otherwise the amount is empty and the description
is the substring from index 9, stripped. -/
def v1ParseStartLine (line : String) : Option V1Record :=
  let cs := line.data
  if startsWithDate8 cs then
    match v1SearchAmount cs with
    | some (i, cap) =>
        some { date := String.mk (cs.take 8)
               description := String.mk (pyStrip ((cs.drop 9).take (i - 9)))
               amount := String.mk cap }
    | none =>
        some { date := String.mk (cs.take 8)
               description := String.mk (pyStrip (cs.drop 9))
               amount := "" }
  else none

/-! ### Auxiliary lemmas -/

theorem pyStrip_idem (l : List Char) : pyStrip (pyStrip l) = pyStrip l := by
  unfold pyStrip
  have h1 : (l.dropWhile isPySpace).dropWhile isPySpace = l.dropWhile isPySpace :=
    List.dropWhile_idempotent isPySpace l
  have h2 : ((l.dropWhile isPySpace).rdropWhile isPySpace).dropWhile isPySpace =
      (l.dropWhile isPySpace).rdropWhile isPySpace := by
    rcases hE : (l.dropWhile isPySpace).rdropWhile isPySpace with _ | ⟨c, t⟩
    · simp
    · have hpref : (l.dropWhile isPySpace).rdropWhile isPySpace <+: l.dropWhile isPySpace :=
        List.rdropWhile_prefix isPySpace (l.dropWhile isPySpace)
      rw [hE] at hpref
      obtain ⟨s, hs⟩ := hpref
      have hc : isPySpace c = false := by
        by_contra hc
        rw [Bool.not_eq_false] at hc
        have hX : l.dropWhile isPySpace = c :: (t ++ s) := by rw [← hs]; simp
        have := h1
        rw [hX, List.dropWhile_cons, if_pos hc] at this
        have hlen := congrArg List.length this
        have hle : (List.dropWhile isPySpace (t ++ s)).length ≤ (t ++ s).length :=
          (List.dropWhile_sublist isPySpace).length_le
        rw [List.length_cons] at hlen
        omega
      rw [List.dropWhile_cons, if_neg (by simp [hc])]
  rw [h2, List.rdropWhile_idempotent]

theorem parseUnsigned_nonneg (cs : List Char) (q : ℚ)
    (h : parseUnsigned cs = some q) : 0 ≤ q := by
  simp only [parseUnsigned] at h
  split at h
  · split at h
    · exact absurd h (by simp)
    · rw [Option.some.injEq] at h
      subst h
      rw [Rat.mkRat_eq_div]
      positivity
  · split at h
    · rw [Option.some.injEq] at h
      subst h
      rw [Rat.mkRat_eq_div]
      positivity
    · exact absurd h (by simp)
  · exact absurd h (by simp)

theorem matchAmountLen_isSome_of (c : Char) (t : List Char) (hc : isAmtChar c = true) :
    ∃ k, matchAmountLen ('$' :: c :: t) = some k := by
  simp only [matchAmountLen, List.takeWhile_cons, hc, if_true]
  simp only [List.isEmpty_cons, if_false, Bool.false_eq_true]
  split <;> exact ⟨_, rfl⟩

theorem findAmountsF_ne_nil (pre : List Char) :
    ∀ (fuel : Nat) (c : Char) (t : List Char), isAmtChar c = true →
      (pre ++ '$' :: c :: t).length ≤ fuel →
      findAmountsF fuel (pre ++ '$' :: c :: t) ≠ [] := by
  induction pre with
  | nil =>
      intro fuel c t hc hf
      cases fuel with
      | zero => simp at hf
      | succ f =>
          obtain ⟨k, hk⟩ := matchAmountLen_isSome_of c t hc
          simp only [List.nil_append] at hf ⊢
          simp [findAmountsF, hk]
  | cons x pre ih =>
      intro fuel c t hc hf
      cases fuel with
      | zero => simp at hf
      | succ f =>
          simp only [List.cons_append] at hf ⊢
          cases hm : matchAmountLen (x :: (pre ++ '$' :: c :: t)) with
          | some k => simp [findAmountsF, hm]
          | none =>
              simp only [findAmountsF, hm]
              exact ih f c t hc (by simp at hf ⊢; omega)

theorem findAmounts_ne_nil (pre : List Char) (c : Char) (t : List Char)
    (hc : isAmtChar c = true) : findAmounts (pre ++ '$' :: c :: t) ≠ [] :=
  findAmountsF_ne_nil pre _ c t hc (Nat.le_refl _)

theorem amountToEnd_shape (g6 : List Char) (h : amountToEnd g6 = true) :
    ∃ c t2, g6 = '$' :: c :: t2 ∧ isAmtChar c = true := by
  match g6 with
  | [] => simp [amountToEnd] at h
  | c0 :: body =>
      simp only [amountToEnd] at h
      split at h
      case isFalse => simp at h
      case isTrue hdollar =>
        subst hdollar
        rw [Bool.and_eq_true] at h
        have h1 := h.1
        match body with
        | [] => simp at h1
        | b :: bs =>
            refine ⟨b, bs, rfl, ?_⟩
            by_cases hl : (b :: bs).getLast? = some '-'
            · rw [if_pos hl] at h1
              match bs with
              | [] => simp at h1
              | b2 :: bs2 =>
                  rw [List.dropLast_cons₂] at h1
                  rw [List.takeWhile_cons] at h1
                  by_cases hb : isAmtChar b = true
                  · exact hb
                  · rw [if_neg hb] at h1; simp at h1
            · rw [if_neg hl] at h1
              rw [List.takeWhile_cons] at h1
              by_cases hb : isAmtChar b = true
              · exact hb
              · rw [if_neg hb] at h1; simp at h1

theorem checkSplit_amountToEnd (t : List Char) (s p : Nat) (g5 g6 : List Char)
    (h : checkSplit t s p = some (g5, g6)) : amountToEnd g6 = true := by
  simp only [checkSplit] at h
  split at h
  · rename_i hcond
    rw [Option.some.injEq, Prod.mk.injEq] at h
    rw [Bool.and_eq_true, Bool.and_eq_true] at hcond
    rw [← h.2]
    exact hcond.1.2
  · exact absurd h (by simp)

theorem searchSplit_amountToEnd (t : List Char) (w : Nat) (g5 g6 : List Char)
    (h : searchSplit t w = some (g5, g6)) : amountToEnd g6 = true := by
  unfold searchSplit at h
  obtain ⟨s, _, h2⟩ := List.exists_of_findSome?_eq_some h
  obtain ⟨p, _, h3⟩ := List.exists_of_findSome?_eq_some h2
  exact checkSplit_amountToEnd t s p g5 g6 h3

theorem matchTransPattern_amountToEnd (cs g1 g2 g3 g4 g5 g6 : List Char)
    (h : matchTransPattern cs = some (g1, g2, g3, g4, g5, g6)) :
    amountToEnd g6 = true := by
  unfold matchTransPattern at h
  split at h
  · exact absurd h (by simp)
  split at h
  · exact absurd h (by simp)
  split at h
  · exact absurd h (by simp)
  split at h
  · exact absurd h (by simp)
  split at h
  · exact absurd h (by simp)
  split at h
  · exact absurd h (by simp)
  split at h
  · exact absurd h (by simp)
  split at h
  · exact absurd h (by simp)
  split at h
  · exact absurd h (by simp)
  · rename_i hs
    simp only [Option.some.injEq, Prod.mk.injEq] at h
    obtain ⟨_, _, _, _, _, h6⟩ := h
    subst h6
    exact searchSplit_amountToEnd _ _ _ _ hs

theorem matchTransPattern_findAmounts_ne_nil (cs g1 g2 g3 g4 g5 g6 : List Char)
    (h : matchTransPattern cs = some (g1, g2, g3, g4, g5, g6)) :
    findAmounts (g5 ++ ' ' :: g6) ≠ [] := by
  obtain ⟨c, t2, hsh, hc⟩ :=
    amountToEnd_shape g6 (matchTransPattern_amountToEnd cs g1 g2 g3 g4 g5 g6 h)
  rw [hsh]
  have hsw : g5 ++ ' ' :: '$' :: c :: t2 = (g5 ++ [' ']) ++ '$' :: c :: t2 := by simp
  rw [hsw]
  exact findAmounts_ne_nil (g5 ++ [' ']) c t2 hc

/-- Claim C3: on the input line
`"07/26 07/26 230001700 5270487K10PYZ1F85 CHICK-FIL-A WASHINGTON DC $13.74"`
with no continuation lines, the variant-2 field extractor returns a record with
amount `13.74`, description `"CHICK-FIL-A WASHINGTON DC"`, and transaction date
`"07/26/<current year>"` for every run-time year. -/
theorem c3_variant2_chick_fil_a (year : Nat) :
    ∃ t, parse_transaction_line
        "07/26 07/26 230001700 5270487K10PYZ1F85 CHICK-FIL-A WASHINGTON DC $13.74"
        ["07/26 07/26 230001700 5270487K10PYZ1F85 CHICK-FIL-A WASHINGTON DC $13.74"]
        0 year = some t ∧
      t.amount = 13.74 ∧ t.description = "CHICK-FIL-A WASHINGTON DC" ∧
      t.trans_date = "07/26/" ++ toString year := by
  have hq : (mkRat 1374 100 : ℚ) = 13.74 := by
    rw [Rat.mkRat_eq_div]; norm_num
  refine ⟨⟨"07/26/" ++ toString year, "07/26/" ++ toString year, "230001700",
      "5270487K10PYZ1F85", "CHICK-FIL-A WASHINGTON DC", 13.74⟩, ?_, rfl, rfl, rfl⟩
  rw [← hq]
  rfl

/-- Claim C8: on the start line `"01/15/24 GROCERY STORE $45.23"` the variant-1
field extractor (modelled from the spec) yields date `"01/15/24"`, description
`"GROCERY STORE"`, amount `"45.23"`. -/
theorem c8_variant1_grocery :
    v1ParseStartLine "01/15/24 GROCERY STORE $45.23" =
      some { date := "01/15/24", description := "GROCERY STORE", amount := "45.23" } := by
  decide

/-- Claim C2, counterexample: on the matched line
`"07/26 07/26 R1 T1 PAY $5.00 FEE $5.00"` the last currency match is `"$5.00"`,
but the extractor removes BOTH occurrences of that text (Python `str.replace`
replaces all occurrences), producing description `"PAY  FEE"` rather than the
claimed `"PAY $5.00 FEE"` in which the earlier occurrence would be preserved. -/
theorem c2_counterexample :
    ((parse_transaction_line "07/26 07/26 R1 T1 PAY $5.00 FEE $5.00"
        ["07/26 07/26 R1 T1 PAY $5.00 FEE $5.00"] 0 2024).map
      (fun t => t.description) = some "PAY  FEE") ∧
    ("PAY  FEE" : String) ≠ "PAY $5.00 FEE" := by
  refine ⟨by decide, by decide⟩

/-- Claim C4, counterexample: with the lines
`["07/26 07/26 A1 B1 DESC $1.00", "  07/26 X", "TAIL", ""]`, the line
`"  07/26 X"` satisfies all three while-conditions of the continuation loop
(non-empty when trimmed, raw text does not start with `MM/DD`, no section-end
marker), yet its trimmed text is NOT appended to the description; moreover the
scan does not stop there — the later line `"TAIL"` is appended, giving
description `"DESC TAIL"`. -/
theorem c4_counterexample :
    ((parse_transaction_line "07/26 07/26 A1 B1 DESC $1.00"
        ["07/26 07/26 A1 B1 DESC $1.00", "  07/26 X", "TAIL", ""] 0 2024).map
      (fun t => t.description) = some "DESC TAIL") ∧
    contWhileCond "  07/26 X" = true ∧
    containsS "DESC TAIL" "07/26 X" = false := by
  refine ⟨by decide, by decide, by decide⟩

/-- Claim C5, counterexample: the line `"07/26 07/26 A1 B1 X $,-"` matches the
five-field pattern with amount token `"$,-"`, which ends in `-`; but after
normalization the cleaned amount is just `"-"`, decimal parsing fails, and the
extractor returns nothing rather than a negative amount. -/
theorem c5_counterexample :
    matchTransPattern "07/26 07/26 A1 B1 X $,-".data =
      some ("07/26".data, "07/26".data, "A1".data, "B1".data, "X".data, "$,-".data) ∧
    ("$,-".data).getLast? = some '-' ∧
    parse_transaction_line "07/26 07/26 A1 B1 X $,-"
      ["07/26 07/26 A1 B1 X $,-"] 0 2024 = none := by
  refine ⟨rfl, rfl, rfl⟩

/-- Claim C10, counterexample: inside a transaction section, the indented start
line `" 07/28 07/28 C1 D1 DESC2 $2.00"` does become a record of its own, but its
text is NOT appended to the preceding record's description (the continuation
loop re-tests the stripped line against the date pattern and skips it), so the
same line's text does not contribute to both records as claimed. -/
theorem c10_counterexample :
    ((scanPage ["Trans Date Post Date Amount", "07/26 07/26 A1 B1 DESC $1.00",
        " 07/28 07/28 C1 D1 DESC2 $2.00", "EXTRA", ""] 2024 false).map
      (fun t => t.description) = ["DESC EXTRA", "DESC2 EXTRA"]) ∧
    containsS "DESC EXTRA" "07/28" = false ∧
    containsS "DESC EXTRA" "DESC2" = false := by
  refine ⟨by decide, by decide, by decide⟩

/-- Claim C10, amended: an inside-section line whose `MM/DD` date is preceded by
leading whitespace is skipped by the continuation scan (advanced past without
being appended), while the outer scanner strips the line before testing and
passes it to the field extractor as a new transaction-start line; consequently a
line FOLLOWING it (here `"EXTRA"`) contributes to both the previous record's
description and the new record's description. -/
theorem c10_amended :
    scanPage ["Trans Date Post Date Amount", "07/26 07/26 A1 B1 DESC $1.00",
        " 07/28 07/28 C1 D1 DESC2 $2.00", "EXTRA", ""] 2024 false =
      [{ trans_date := "07/26/2024", post_date := "07/26/2024", reference_number := "A1",
         transaction_id := "B1", description := "DESC EXTRA", amount := 1 },
       { trans_date := "07/28/2024", post_date := "07/28/2024", reference_number := "C1",
         transaction_id := "D1", description := "DESC2 EXTRA", amount := 2 }] := by
  decide

/-- Claim C1, counterexample: after a page that found a header and then hit a
`"Continued on next page"` line, the section state at the end of that page is
Inside-section; yet a transaction line at the top of the next page is NOT
extracted by the multi-page scan, because the scanner re-initializes the state
to Outside-section at the start of every page (had the state persisted, the
record would have been extracted, as the third conjunct shows). -/
theorem c1_counterexample :
    scanPageState ["Trans Date Post Date Amount", "Continued on next page"] false = true ∧
    extract_transactions_from_bilt_statement
        [["Trans Date Post Date Amount", "Continued on next page"],
         ["07/26 07/26 230001700 5270487K10PYZ1F85 CHICK-FIL-A WASHINGTON DC $13.74"]]
        2024 = [] ∧
    scanPage ["07/26 07/26 230001700 5270487K10PYZ1F85 CHICK-FIL-A WASHINGTON DC $13.74"]
        2024 true ≠ [] := by
  refine ⟨by decide, by decide, by decide⟩

/-- Claim C1, amended: within a page, a line containing `"Continued on next
page"` seen while Inside-section keeps the Inside-section state (a no-op); but
the scanner reinitializes the section state to Outside-section at the start of
every page, so the state at the start of a new page is always Outside-section
regardless of the previous page's final state. -/
theorem c1_amended :
    (∀ (sec : Bool) (l : String), sec = true →
        containsS (pyStripS l) "Continued on next page" = true → sectionStep sec l = true) ∧
    (∀ (pages : List (List String)) (page : List String) (year : Nat),
        extract_transactions_from_bilt_statement (pages ++ [page]) year =
          extract_transactions_from_bilt_statement pages year ++ scanPage page year false) := by
  constructor
  · intro sec l hsec hc
    subst hsec
    unfold sectionStep
    by_cases hh : isTransactionHeader (pyStripS l) = true
    · simp [hh]
    · have hmk : anyMarkerIn (pyStripS l) = true := by
        unfold anyMarkerIn
        rw [List.any_eq_true]
        exact ⟨"Continued on next page", by simp [sectionMarkers], hc⟩
      simp [hh, hmk, hc]
  · intro pages page year
    unfold extract_transactions_from_bilt_statement
    rw [List.foldl_append]
    simp

/-- Witness for the amended claim C1 at concrete inputs. -/
theorem c1_amended_witness :
    sectionStep true "Continued on next page" = true ∧
    extract_transactions_from_bilt_statement ([[""]] ++ [["x"]]) 2024 =
      extract_transactions_from_bilt_statement [[""]] 2024 ++ scanPage ["x"] 2024 false :=
  ⟨c1_amended.1 true "Continued on next page" rfl (by decide),
   c1_amended.2 [[""]] ["x"] 2024⟩

/-- Claim C2, amended: for every matching transaction-start line (taken here
with no continuation lines), the record's description equals the combined
description+amount tail with EVERY occurrence of the last currency-amount match
removed (Python `str.replace` removes all occurrences, not only the last one),
then trimmed of whitespace. -/
theorem c2_amended (line : String) (year : Nat)
    (g1 g2 g3 g4 g5 g6 amt : List Char) (t : Transaction)
    (hm : matchTransPattern line.data = some (g1, g2, g3, g4, g5, g6))
    (ha : (findAmounts (g5 ++ ' ' :: g6)).getLast? = some amt)
    (hp : parse_transaction_line line [line] 0 year = some t) :
    t.description = String.mk (pyStrip (replaceAll amt (g5 ++ ' ' :: g6))) := by
  unfold parse_transaction_line at hp
  rw [hm] at hp
  dsimp only at hp
  rw [ha] at hp
  dsimp only at hp
  cases hd : parseDecimal (moveTrailingSign (stripDollarCommas amt)) with
  | none => rw [hd] at hp; simp at hp
  | some q =>
      rw [hd] at hp
      simp only [Option.some.injEq] at hp
      subst hp
      dsimp only [contLoop, contLoopAux, List.drop]
      rw [pyStrip_idem]

/-- Witness for the amended claim C2 at a concrete input. -/
theorem c2_amended_witness :
    (⟨"07/26/2024", "07/26/2024", "R2", "T2", "UBER TRIP", mkRat 750 100⟩ :
        Transaction).description =
      String.mk (pyStrip (replaceAll "$7.50".data ("UBER TRIP".data ++ ' ' :: "$7.50".data))) :=
  c2_amended "07/26 07/26 R2 T2 UBER TRIP $7.50" 2024
    "07/26".data "07/26".data "R2".data "T2".data "UBER TRIP".data "$7.50".data "$7.50".data
    _ rfl rfl rfl

/-- Claim C4, amended: the continuation scan advances while the raw next line
has non-blank content, does not itself (unstripped) start with the `MM/DD`
pattern, and contains no section-end marker; such a line is appended (trimmed,
space-joined) only when its trimmed text also does not start with the `MM/DD`
pattern — otherwise it is skipped without being appended; the scan stops at the
first line failing a while-condition, and that line is not appended. -/
theorem c4_amended (all : List String) (j : Nat) (d : List Char) (raw : String)
    (hj : all[j]? = some raw) :
    (contWhileCond raw = false → contLoop all j d = d) ∧
    (contWhileCond raw = true → startsWithDate (pyStrip raw.data) = false →
        contLoop all j d = contLoop all (j + 1) (d ++ ' ' :: pyStrip raw.data)) ∧
    (contWhileCond raw = true → startsWithDate (pyStrip raw.data) = true →
        contLoop all j d = contLoop all (j + 1) d) := by
  have hlt : j < all.length := by
    by_contra hge
    rw [List.getElem?_eq_none (Nat.le_of_not_lt hge)] at hj
    exact absurd hj (by simp)
  have hget : all[j] = raw := by
    have := List.getElem?_eq_getElem hlt
    rw [hj] at this
    exact (Option.some.injEq _ _ ▸ this.symm)
  have hdrop : all.drop j = raw :: all.drop (j + 1) := by
    rw [List.drop_eq_getElem_cons hlt, hget]
  unfold contLoop
  rw [hdrop]
  refine ⟨?_, ?_, ?_⟩
  · intro h1
    simp [contLoopAux, h1]
  · intro h1 h2
    have hne : (pyStrip raw.data).isEmpty = false := by
      unfold contWhileCond at h1
      rw [Bool.and_eq_true, Bool.and_eq_true] at h1
      simpa using h1.1.1
    simp [contLoopAux, h1, h2, hne]
  · intro h1 h2
    simp [contLoopAux, h1, h2]

/-- Witness for the amended claim C4 at concrete inputs. -/
theorem c4_amended_witness :
    contLoop ["x", "NOTE"] 1 "D".data =
      contLoop ["x", "NOTE"] (1 + 1) ("D".data ++ ' ' :: pyStrip "NOTE".data) :=
  (c4_amended ["x", "NOTE"] 1 "D".data "NOTE" rfl).2.1 (by decide) (by decide)

/-- Claim C5, amended: for every matched transaction-start line whose trailing
amount token ends in `-`, the extractor strips `$` and thousands separators and
moves the trailing `-` to the front; when the resulting string parses as a
decimal with (nonnegative) magnitude `m`, the extractor yields `amount = -m`;
when parsing fails (e.g. token `"$,-"`), it returns nothing instead. -/
theorem c5_amended (line : String) (all : List String) (i year : Nat)
    (g1 g2 g3 g4 g5 g6 amt : List Char) (m : ℚ)
    (hm : matchTransPattern line.data = some (g1, g2, g3, g4, g5, g6))
    (ha : (findAmounts (g5 ++ ' ' :: g6)).getLast? = some amt)
    (hminus : (stripDollarCommas amt).getLast? = some '-')
    (hq : parseUnsigned ((stripDollarCommas amt).dropLast) = some m) :
    0 ≤ m ∧ ∃ t, parse_transaction_line line all i year = some t ∧ t.amount = -m := by
  refine ⟨parseUnsigned_nonneg _ m hq, ?_⟩
  unfold parse_transaction_line
  rw [hm]
  dsimp only
  rw [ha]
  dsimp only
  have hmv : moveTrailingSign (stripDollarCommas amt) =
      '-' :: (stripDollarCommas amt).dropLast := by
    unfold moveTrailingSign
    rw [if_pos hminus]
  rw [hmv]
  have hpd : parseDecimal ('-' :: (stripDollarCommas amt).dropLast) = some (-m) := by
    show (parseUnsigned ((stripDollarCommas amt).dropLast)).map (fun q => -q) = some (-m)
    rw [hq]
    rfl
  rw [hpd]
  exact ⟨_, rfl, rfl⟩

/-- Witness for the amended claim C5 at a concrete input: `"$20.00-"` yields
amount `-20.00`. -/
theorem c5_amended_witness :
    (0 : ℚ) ≤ mkRat 2000 100 ∧
    ∃ t, parse_transaction_line "07/26 07/26 A2 B2 REFUND $20.00-"
        ["07/26 07/26 A2 B2 REFUND $20.00-"] 0 2024 = some t ∧
      t.amount = -(mkRat 2000 100) :=
  c5_amended "07/26 07/26 A2 B2 REFUND $20.00-" ["07/26 07/26 A2 B2 REFUND $20.00-"] 0 2024
    "07/26".data "07/26".data "A2".data "B2".data "REFUND".data "$20.00-".data
    "$20.00-".data (mkRat 2000 100) rfl rfl rfl (by decide)

/-- Claim C6: the variant-2 field extractor returns nothing exactly when the
line fails the five-field pattern or its normalized amount fails decimal
parsing (being a total function, it never throws); and the scanner always
continues with the subsequent lines, whatever one line's processing yields. -/
theorem c6_parse_failure_iff :
    (∀ (line : String) (all : List String) (i year : Nat),
        parse_transaction_line line all i year = none ↔
          matchTransPattern line.data = none ∨
            ∃ g1 g2 g3 g4 g5 g6 amt,
              matchTransPattern line.data = some (g1, g2, g3, g4, g5, g6) ∧
                (findAmounts (g5 ++ ' ' :: g6)).getLast? = some amt ∧
                parseDecimal (moveTrailingSign (stripDollarCommas amt)) = none) ∧
    (∀ (all : List String) (year : Nat) (l : String) (rest : List String) (i : Nat) (sec : Bool),
        scanAux all year (l :: rest) i sec =
          (lineEmit sec l all i year).toList ++ scanAux all year rest (i + 1) (sectionStep sec l)) := by
  constructor
  · intro line all i year
    constructor
    · intro hp
      unfold parse_transaction_line at hp
      cases hmc : matchTransPattern line.data with
      | none => exact Or.inl rfl
      | some gs =>
          obtain ⟨g1, g2, g3, g4, g5, g6⟩ := gs
          rw [hmc] at hp
          dsimp only at hp
          have hne := matchTransPattern_findAmounts_ne_nil line.data g1 g2 g3 g4 g5 g6 hmc
          cases hga : (findAmounts (g5 ++ ' ' :: g6)).getLast? with
          | none => exact absurd (List.getLast?_eq_none_iff.mp hga) hne
          | some amt =>
              rw [hga] at hp
              dsimp only at hp
              cases hpd : parseDecimal (moveTrailingSign (stripDollarCommas amt)) with
              | none => exact Or.inr ⟨g1, g2, g3, g4, g5, g6, amt, rfl, hga, hpd⟩
              | some q => rw [hpd] at hp; simp at hp
    · intro h
      rcases h with hmc | ⟨g1, g2, g3, g4, g5, g6, amt, hmc, hga, hpd⟩
      · unfold parse_transaction_line
        rw [hmc]
      · unfold parse_transaction_line
        rw [hmc]
        dsimp only
        rw [hga]
        dsimp only
        rw [hpd]
  · intro all year l rest i sec
    cases he : lineEmit sec l all i year with
    | some t => simp [scanAux, he]
    | none => simp [scanAux, he]

/-- Claim C7: the writer produces a "no transactions" notice (and no file) on an
empty record sequence, and otherwise writes the header row of field names
followed by one row per record in sequence order. -/
theorem c7_writer :
    save_transactions_to_csv [] = SaveResult.notice "No transactions to save" ∧
    ∀ ts : List Transaction, ts ≠ [] →
      save_transactions_to_csv ts =
        SaveResult.file ((fieldnames.map CsvCell.str) :: ts.map recordRow) := by
  refine ⟨rfl, ?_⟩
  intro ts hne
  have hem : ts.isEmpty = false := by
    cases ts with
    | nil => exact absurd rfl hne
    | cons a l => rfl
  unfold save_transactions_to_csv
  rw [hem]
  simp

/-- Witness for claim C7 at a concrete input. -/
theorem c7_writer_witness :
    save_transactions_to_csv [⟨"07/26/2024", "07/26/2024", "A", "B", "x", 1⟩] =
      SaveResult.file ((fieldnames.map CsvCell.str) ::
        [(⟨"07/26/2024", "07/26/2024", "A", "B", "x", 1⟩ : Transaction)].map recordRow) :=
  c7_writer.2 [⟨"07/26/2024", "07/26/2024", "A", "B", "x", 1⟩] (by simp)

theorem pyMinFold_mem (l : List String) (a : String) : pyMinFold l a ∈ a :: l := by
  induction l generalizing a with
  | nil => simp [pyMinFold]
  | cons x xs ih =>
      have hfold : pyMinFold (x :: xs) a = pyMinFold xs (if x < a then x else a) := rfl
      rw [hfold]
      rcases List.mem_cons.mp (ih (if x < a then x else a)) with h | h
      · rw [h]
        by_cases hx : x < a
        · simp [hx]
        · simp [hx]
      · exact List.mem_cons_of_mem _ (List.mem_cons_of_mem _ h)

theorem pyMinFold_le (l : List String) (a : String) :
    ∀ y ∈ a :: l, pyMinFold l a ≤ y := by
  induction l generalizing a with
  | nil =>
      intro y hy
      simp at hy
      subst hy
      exact le_refl _
  | cons x xs ih =>
      intro y hy
      have hb1 : (if x < a then x else a) ≤ a := by
        by_cases hx : x < a
        · rw [if_pos hx]; exact le_of_lt hx
        · rw [if_neg hx]
      have hb2 : (if x < a then x else a) ≤ x := by
        by_cases hx : x < a
        · rw [if_pos hx]
        · rw [if_neg hx]; exact le_of_not_lt hx
      have hself : pyMinFold xs (if x < a then x else a) ≤ (if x < a then x else a) :=
        ih _ _ (List.mem_cons_self _ _)
      have hres : pyMinFold (x :: xs) a = pyMinFold xs (if x < a then x else a) := rfl
      rw [hres]
      rcases List.mem_cons.mp hy with h | h
      · subst h
        exact le_trans hself hb1
      · rcases List.mem_cons.mp h with h2 | h2
        · subst h2
          exact le_trans hself hb2
        · exact ih _ y (List.mem_cons_of_mem _ h2)

theorem pyMaxFold_mem (l : List String) (a : String) : pyMaxFold l a ∈ a :: l := by
  induction l generalizing a with
  | nil => simp [pyMaxFold]
  | cons x xs ih =>
      have hfold : pyMaxFold (x :: xs) a = pyMaxFold xs (if a < x then x else a) := rfl
      rw [hfold]
      rcases List.mem_cons.mp (ih (if a < x then x else a)) with h | h
      · rw [h]
        by_cases hx : a < x
        · simp [hx]
        · simp [hx]
      · exact List.mem_cons_of_mem _ (List.mem_cons_of_mem _ h)

theorem pyMaxFold_ge (l : List String) (a : String) :
    ∀ y ∈ a :: l, y ≤ pyMaxFold l a := by
  induction l generalizing a with
  | nil =>
      intro y hy
      simp at hy
      subst hy
      exact le_refl _
  | cons x xs ih =>
      intro y hy
      have hb1 : a ≤ (if a < x then x else a) := by
        by_cases hx : a < x
        · rw [if_pos hx]; exact le_of_lt hx
        · rw [if_neg hx]
      have hb2 : x ≤ (if a < x then x else a) := by
        by_cases hx : a < x
        · rw [if_pos hx]
        · rw [if_neg hx]; exact le_of_not_lt hx
      have hself : (if a < x then x else a) ≤ pyMaxFold xs (if a < x then x else a) :=
        ih _ _ (List.mem_cons_self _ _)
      have hres : pyMaxFold (x :: xs) a = pyMaxFold xs (if a < x then x else a) := rfl
      rw [hres]
      rcases List.mem_cons.mp hy with h | h
      · subst h
        exact le_trans hb1 hself
      · rcases List.mem_cons.mp h with h2 | h2
        · subst h2
          exact le_trans hb2 hself
        · exact ih _ y (List.mem_cons_of_mem _ h2)

/-- Claim C9: on a nonempty record sequence the analyzer reports the minimum and
maximum `trans_date` under lexicographic string comparison (the `<` of `String`,
which compares character lists lexicographically by code point); on the empty
sequence it returns nothing (after its "no transactions found" notice) without
computing any totals or date range. -/
theorem c9_analyzer :
    analyze_extracted_transactions [] = none ∧
    ∀ ts : List Transaction, ts ≠ [] →
      ∃ r, analyze_extracted_transactions ts = some r ∧
        r.min_date ∈ ts.map (fun x => x.trans_date) ∧
        r.max_date ∈ ts.map (fun x => x.trans_date) ∧
        (∀ d ∈ ts.map (fun x => x.trans_date), r.min_date ≤ d) ∧
        (∀ d ∈ ts.map (fun x => x.trans_date), d ≤ r.max_date) := by
  refine ⟨rfl, ?_⟩
  intro ts hne
  cases ts with
  | nil => exact absurd rfl hne
  | cons t rest =>
      refine ⟨_, rfl, ?_, ?_, ?_, ?_⟩
      · exact pyMinFold_mem (rest.map fun x => x.trans_date) t.trans_date
      · exact pyMaxFold_mem (rest.map fun x => x.trans_date) t.trans_date
      · intro d hd
        simp only [List.map_cons] at hd
        exact pyMinFold_le (rest.map fun x => x.trans_date) t.trans_date d hd
      · intro d hd
        simp only [List.map_cons] at hd
        exact pyMaxFold_ge (rest.map fun x => x.trans_date) t.trans_date d hd

/-- Witness for claim C9 at a concrete two-record input. -/
theorem c9_analyzer_witness :
    ∃ r, analyze_extracted_transactions
        [⟨"07/26/2024", "07/26/2024", "A", "B", "x", 1⟩,
         ⟨"01/02/2024", "01/02/2024", "C", "D", "y", 2⟩] = some r ∧
      r.min_date ∈ ([⟨"07/26/2024", "07/26/2024", "A", "B", "x", 1⟩,
         ⟨"01/02/2024", "01/02/2024", "C", "D", "y", 2⟩] : List Transaction).map
          (fun x => x.trans_date) ∧
      r.max_date ∈ ([⟨"07/26/2024", "07/26/2024", "A", "B", "x", 1⟩,
         ⟨"01/02/2024", "01/02/2024", "C", "D", "y", 2⟩] : List Transaction).map
          (fun x => x.trans_date) ∧
      (∀ d ∈ ([⟨"07/26/2024", "07/26/2024", "A", "B", "x", 1⟩,
         ⟨"01/02/2024", "01/02/2024", "C", "D", "y", 2⟩] : List Transaction).map
          (fun x => x.trans_date), r.min_date ≤ d) ∧
      (∀ d ∈ ([⟨"07/26/2024", "07/26/2024", "A", "B", "x", 1⟩,
         ⟨"01/02/2024", "01/02/2024", "C", "D", "y", 2⟩] : List Transaction).map
          (fun x => x.trans_date), d ≤ r.max_date) :=
  c9_analyzer.2
    [⟨"07/26/2024", "07/26/2024", "A", "B", "x", 1⟩,
     ⟨"01/02/2024", "01/02/2024", "C", "D", "y", 2⟩] (by simp)

end ConvertStatement
